import Mathlib

/-!
Verification of the CSV → Zotero-XML converter (`src/conversor.py`).

The development shallowly embeds the core of the converter:
  * the value normalizer `clean_and_format_value` and the author cleaner
    `clean_author` (including faithful models of the three regular
    expressions the script uses),
  * the XML tree model and the find-or-create path attachment performed
    inside `main`'s row loop,
  * the record builder (fixed mapping table, boilerplate leaves) and the
    row-iteration driver.

Strings are processed as `List Char`; `String.data` mediates between
string literals and the character-list functions.
-/

namespace Conversor

/-! ### Python string primitives -/

/-- Characters matched by Python's `str.strip()` default set and by `\s`
(ASCII part; the inputs handled here contain no exotic Unicode spaces). -/
def isPySpace (c : Char) : Bool :=
  c = ' ' || c = '\t' || c = '\n' || c = '\r' || c = '\x0b' || c = '\x0c'

/-- Remove trailing characters satisfying `isPySpace` (right half of `str.strip()`). -/
def stripRight (cs : List Char) : List Char :=
  (cs.reverse.dropWhile isPySpace).reverse

/-- Python `str.strip()`: drop leading and trailing whitespace. -/
def pyStrip (cs : List Char) : List Char :=
  stripRight (cs.dropWhile isPySpace)

/-- Python `s.replace('\r\n', ' ')`: left-to-right, non-overlapping. -/
def replaceCRLF : List Char → List Char
  | '\r' :: '\n' :: rest => ' ' :: replaceCRLF rest
  | c :: rest => c :: replaceCRLF rest
  | [] => []

/-- Python `s.replace('\n', ' ')` (single-character replacement is a map). -/
def replaceNL (cs : List Char) : List Char :=
  cs.map (fun c => if c = '\n' then ' ' else c)

/-- Python `s.replace('"', '')`. -/
def removeQuotes (cs : List Char) : List Char :=
  cs.filter (fun c => c ≠ '"')

/-- The general cleanup of `clean_and_format_value`:
`str(value).strip()` followed by `.replace('\r\n',' ').replace('\n',' ').replace('"','')`.
Note the strip happens FIRST, before the replacements. -/
def generalClean (cs : List Char) : List Char :=
  removeQuotes (replaceNL (replaceCRLF (pyStrip cs)))

/-! ### The regular expressions of `conversor.py`

All three patterns are modelled as executable matchers on `List Char`.
For the two author patterns, which are anchored by `$`, `re.sub` removes a
suffix starting at the leftmost position whose suffix matches; Python's
`$` also matches just before a single trailing newline, which the
matchers reproduce via `dollarEnd` (our strip helper removes that final
newline together with the match, while `re.sub` keeps it; the difference
is erased by the `.strip()` that `clean_author` always performs last). -/

/-- Python `$` (no MULTILINE): matches at the end of the string, or just
before a newline that is the last character. -/
def dollarEnd : List Char → Bool
  | [] => true
  | ['\n'] => true
  | _ => false

/-- Character class `[a-f0-9-]` of the DSpace identifier patterns. -/
def isHexId (c : Char) : Bool :=
  ('a' ≤ c && c ≤ 'f') || ('0' ≤ c && c ≤ '9') || c = '-'

/-- Full-suffix match of `::[a-f0-9-]+::\d+$` (the bare identifier pattern
of `clean_author`, second `re.sub`). -/
def matchIdSuffix (t : List Char) : Bool :=
  match t with
  | ':' :: ':' :: rest =>
    let h := rest.takeWhile isHexId
    let r := rest.dropWhile isHexId
    decide (h ≠ []) &&
      (match r with
       | ':' :: ':' :: r2 =>
         let d := r2.takeWhile Char.isDigit
         let e := r2.dropWhile Char.isDigit
         decide (d ≠ []) && dollarEnd e
       | _ => false)
  | _ => false

/-- Match of `\) \s* ::[a-f0-9-]+::\d+$` against the whole remaining
input, where the characters scanned before the chosen `)` stand for the
non-greedy `.*?` (which cannot cross a newline). -/
def matchCloseParen : List Char → Bool
  | [] => false
  | c :: tail =>
    (c = ')' && matchIdSuffix (tail.dropWhile isPySpace)) ||
      (c ≠ '\n' && matchCloseParen tail)

/-- Full-suffix match of `\s*\(.*?\)\s*::[a-f0-9-]+::\d+$` (the
institution pattern of `clean_author`, first `re.sub`). -/
def matchInstSuffix : List Char → Bool
  | [] => false
  | c :: tail =>
    (c = '(' && matchCloseParen tail) || (isPySpace c && matchInstSuffix tail)

/-- `re.sub(pat, '', s)` for a `$`-anchored pattern `pat`: delete the
suffix starting at the leftmost position where `m` holds. -/
def stripEndMatch (m : List Char → Bool) : List Char → List Char
  | [] => []
  | c :: tail => if m (c :: tail) then [] else c :: stripEndMatch m tail

/-- Does a `$`-anchored pattern match anywhere (i.e. does `re.sub` with
that pattern change the string)? -/
def hasEndMatch (m : List Char → Bool) : List Char → Bool
  | [] => false
  | c :: tail => m (c :: tail) || hasEndMatch m tail

/-! ### The normalizer -/

/-- `clean_author` (non-NaN case): first `re.sub` removes an
`(Institución)::uuid::digits` suffix, the second `re.sub` is then applied
to the result and removes a bare `::uuid::digits` suffix, and finally
`.strip()`. -/
def clean_author (cs : List Char) : List Char :=
  pyStrip (stripEndMatch matchIdSuffix (stripEndMatch matchInstSuffix cs))

/-- `re.search(r'^\d{4}', s)`: the first four characters when they are
all digits, otherwise no match (empty result). -/
def extractYear : List Char → List Char
  | a :: b :: c :: d :: _ =>
    if a.isDigit && b.isDigit && c.isDigit && d.isDigit then [a, b, c, d] else []
  | _ => []

/-- Splitting on `re.split(r'[\|]{2,}|;', s)`: a `;` splits, a run of two
or more `|` splits (the greedy `{2,}` consumes the whole run), anything
else — including a lone `|` — is literal text. The `Bool` flag records
that the scanner is still inside a pipe-run delimiter, so that the run is
consumed one character at a time (keeping the recursion structural). -/
def splitKwGo : Bool → List Char → List (List Char)
  | _, [] => [[]]
  | true, '|' :: rest => splitKwGo true rest
  | _, ';' :: rest => [] :: splitKwGo false rest
  | false, '|' :: '|' :: rest => [] :: splitKwGo true rest
  | _, c :: rest =>
    match splitKwGo false rest with
    | [] => [[c]]
    | p :: ps => (c :: p) :: ps

/-- `re.split(r'[\|]{2,}|;', s)`. -/
def splitKw (cs : List Char) : List (List Char) := splitKwGo false cs

/-- The keyword list comprehension:
`[k.strip() for k in re.split(...) if k.strip()]`. -/
def splitKeywords (cs : List Char) : List (List Char) :=
  ((splitKw cs).map pyStrip).filter (fun k => k ≠ [])

/-- Result type of `clean_and_format_value`: a single string, or a list
of strings (keyword path). -/
inductive NormValue where
  | str (s : List Char)
  | list (l : List (List Char))
deriving DecidableEq

/-- Python truthiness of a cleaned value (`if cleaned_value:`). -/
def NormValue.truthy : NormValue → Bool
  | .str s => decide (s ≠ [])
  | .list l => decide (l ≠ [])

/-- `clean_and_format_value(value, xml_tag)`. A missing (NaN) cell is
`none` and yields the empty string, as in the Python source. -/
def clean_and_format_value (value : Option (List Char)) (xml_tag : String) : NormValue :=
  match value with
  | none => .str []
  | some v =>
    let value_str := generalClean v
    if xml_tag = "dates/year" then .str (extractYear value_str)
    else if xml_tag = "keywords/keyword" then .list (splitKeywords value_str)
    else if xml_tag = "contributors/authors/author" then .str (clean_author value_str)
    else .str value_str

/-- Author normalization as the specification words it: "strip a trailing
`(institution-name)::hex::digits` if present; OTHERWISE strip a trailing
bare `::hex::digits` suffix if present; then trim" — only one of the two
suffix forms is ever removed. Named for comparison against `clean_author`,
which applies the second substitution unconditionally. -/
def clean_author_claimed (cs : List Char) : List Char :=
  if hasEndMatch matchInstSuffix cs then pyStrip (stripEndMatch matchInstSuffix cs)
  else pyStrip (stripEndMatch matchIdSuffix cs)

/-! ### XML tree model (`xml.etree.ElementTree`) -/

/-- An XML element: tag, attributes, text content, ordered children. -/
inductive XmlNode where
  | node (tag : String) (attrs : List (String × String)) (text : List Char)
      (children : List XmlNode)

/-- Tag of an element. -/
def XmlNode.tag : XmlNode → String
  | .node t _ _ _ => t

/-- Attributes of an element. -/
def XmlNode.attrs : XmlNode → List (String × String)
  | .node _ a _ _ => a

/-- Text content of an element. -/
def XmlNode.text : XmlNode → List Char
  | .node _ _ x _ => x

/-- Children of an element. -/
def XmlNode.children : XmlNode → List XmlNode
  | .node _ _ _ cs => cs

/-- Replace the child list of an element. -/
def XmlNode.withChildren : XmlNode → List XmlNode → XmlNode
  | .node t a x _, cs => .node t a x cs

/-- `Element(tag)`: a fresh empty element. -/
def newNode (t : String) : XmlNode := .node t [] [] []

/-- `SubElement(parent, tag).text = txt`: a leaf holding text. -/
def leafNode (t : String) (txt : List Char) : XmlNode := .node t [] txt []

/-- The find-or-create step of the list branch in `main`'s loop:
`found = current.find(part)`; if absent, `SubElement(current, part)` is
appended and descended into, otherwise the first child with that tag is
descended into. `f` is the continuation mutating the chosen child. -/
def descendList (f : XmlNode → XmlNode) (t : String) : List XmlNode → List XmlNode
  | [] => [f (newNode t)]
  | c :: cs => if c.tag = t then f c :: cs else c :: descendList f t cs

/-- Attachment of a list-valued cleaned value (`isinstance(cleaned_value, list)`
branch): walk `path_parts[:-1]` by find-or-create, then append one leaf per
item, in order. -/
def attachList (parts : List String) (items : List (List Char)) (node : XmlNode) :
    XmlNode :=
  match parts with
  | [] => node
  | [leaf] => node.withChildren (node.children ++ items.map (leafNode leaf))
  | p :: rest =>
    node.withChildren (descendList (fun c => attachList rest items c) p node.children)

/-- The find-or-create step of the scalar branch in `main`'s loop (the
source duplicates the walk code of the list branch verbatim). -/
def descendScalar (f : XmlNode → XmlNode) (t : String) : List XmlNode → List XmlNode
  | [] => [f (newNode t)]
  | c :: cs => if c.tag = t then f c :: cs else c :: descendScalar f t cs

/-- Attachment of a single-string cleaned value (`else` branch of the
`isinstance` test): the same find-or-create walk, then one appended leaf. -/
def attachScalar (parts : List String) (txt : List Char) (node : XmlNode) : XmlNode :=
  match parts with
  | [] => node
  | [leaf] => node.withChildren (node.children ++ [leafNode leaf txt])
  | p :: rest =>
    node.withChildren (descendScalar (fun c => attachScalar rest txt c) p node.children)

/-- Python `xml_path.split('/')` on the character list. -/
def splitSlash : List Char → List (List Char)
  | [] => [[]]
  | '/' :: rest => [] :: splitSlash rest
  | c :: rest =>
    match splitSlash rest with
    | [] => [[c]]
    | p :: ps => (c :: p) :: ps

/-- `xml_path.split('/')` producing the segment names. -/
def pathParts (s : String) : List String :=
  (splitSlash s.data).map (fun l => String.mk l)

/-! ### Record builder and conversion driver -/

/-- The fixed `csv_to_xml_mapping` table, in Python dict insertion order. -/
def csv_to_xml_mapping : List (String × String) :=
  [ ("dc.contributor.author[]", "contributors/authors/author"),
    ("dc.contributor.author", "contributors/authors/author"),
    ("dc.title[en_US]", "titles/title"),
    ("dc.title", "titles/title"),
    ("dc.date.issued[]", "dates/year"),
    ("dc.date.issued", "dates/year"),
    ("dc.publisher[en_US]", "publisher"),
    ("dc.publisher", "publisher"),
    ("dc.description.abstract[en_US]", "abstract"),
    ("dc.description.abstract", "abstract"),
    ("dc.subject[en_US]", "keywords/keyword"),
    ("dc.subject.other[en_US]", "keywords/keyword"),
    ("dc.identifier.uri[]", "urls/web-urls/url"),
    ("dc.identifier.uri", "urls/web-urls/url"),
    ("dc.language.iso[en_US]", "language") ]

/-- A CSV row: column name to cell, where `none` is a missing (NaN) cell.
A column not listed at all is absent from the row. -/
def Row := List (String × Option (List Char))

/-- `csv_col in row` / `row[csv_col]` combined: `none` when the column is
absent, otherwise the cell. -/
def Row.lookup (row : Row) (col : String) : Option (Option (List Char)) :=
  List.lookup col row

/-- The three boilerplate leaves appended to every record. -/
def dbLeaf : XmlNode := .node "database" [("name", "MyLibrary")] "MyLibrary".data []

/-- Boilerplate `source-app` leaf. -/
def appLeaf : XmlNode := .node "source-app" [("name", "Zotero")] "Zotero".data []

/-- Boilerplate `ref-type` leaf with the fixed thesis code 32. -/
def refLeaf : XmlNode := .node "ref-type" [("name", "Thesis")] "32".data []

/-- A record right after the three fixed `SubElement` calls. -/
def baseRecord : XmlNode := .node "record" [] [] [dbLeaf, appLeaf, refLeaf]

/-- One iteration of the mapping loop in `main`: guard on column presence
and non-NaN, clean, guard on truthiness, then attach through the branch
matching the cleaned value's type. -/
def processEntry (row : Row) (record : XmlNode) (entry : String × String) : XmlNode :=
  match row.lookup entry.1 with
  | some (some v) =>
    let cleaned := clean_and_format_value (some v) entry.2
    if cleaned.truthy then
      match cleaned with
      | .list items => attachList (pathParts entry.2) items record
      | .str s => attachScalar (pathParts entry.2) s record
    else record
  | _ => record

/-- The record built for one row: boilerplate leaves, then the mapping
entries processed in table order. -/
def buildRecord (row : Row) : XmlNode :=
  csv_to_xml_mapping.foldl (processEntry row) baseRecord

/-- The `records` container after the row loop: one record appended per
row, in input order. -/
def convertRecords (rows : List Row) : XmlNode :=
  rows.foldl (fun recs row => recs.withChildren (recs.children ++ [buildRecord row]))
    (newNode "records")

/-- The whole document: `<xml>` root holding the `records` container. -/
def convert (rows : List Row) : XmlNode :=
  .node "xml" [] [] [convertRecords rows]

/-! ### Helper lemmas -/

theorem stripRight_eq_rdropWhile (cs : List Char) :
    stripRight cs = List.rdropWhile isPySpace cs := rfl

theorem pyStrip_idem (cs : List Char) : pyStrip (pyStrip cs) = pyStrip cs := by
  unfold pyStrip
  rw [stripRight_eq_rdropWhile, stripRight_eq_rdropWhile]
  have h1 : (List.rdropWhile isPySpace (cs.dropWhile isPySpace)).dropWhile isPySpace
      = List.rdropWhile isPySpace (cs.dropWhile isPySpace) := by
    rw [List.dropWhile_eq_self_iff]
    intro hl
    have hpre := List.rdropWhile_prefix isPySpace (cs.dropWhile isPySpace)
    have hlen : 0 < (cs.dropWhile isPySpace).length := lt_of_lt_of_le hl hpre.length_le
    have hget := hpre.getElem (n := 0) hl
    simp only [List.get_eq_getElem, hget]
    have := List.dropWhile_get_zero_not isPySpace cs hlen
    simpa [List.get_eq_getElem] using this
  rw [h1, List.rdropWhile_idempotent]

theorem stripEndMatch_of_no_match (m : List Char → Bool) (l : List Char)
    (h : hasEndMatch m l = false) : stripEndMatch m l = l := by
  induction l with
  | nil => rfl
  | cons c t ih =>
    rw [hasEndMatch] at h
    simp only [Bool.or_eq_false_iff] at h
    rw [stripEndMatch, if_neg (by simp [h.1]), ih h.2]

theorem tag_withChildren (n : XmlNode) (cs : List XmlNode) :
    (n.withChildren cs).tag = n.tag := by
  cases n; rfl

theorem children_withChildren (n : XmlNode) (cs : List XmlNode) :
    (n.withChildren cs).children = cs := by
  cases n; rfl

theorem attachScalar_tag (parts : List String) (txt : List Char) (n : XmlNode) :
    (attachScalar parts txt n).tag = n.tag := by
  match parts with
  | [] => rfl
  | [leaf] => exact tag_withChildren n _
  | p :: q :: rest => exact tag_withChildren n _

theorem attachList_tag (parts : List String) (items : List (List Char)) (n : XmlNode) :
    (attachList parts items n).tag = n.tag := by
  match parts with
  | [] => rfl
  | [leaf] => exact tag_withChildren n _
  | p :: q :: rest => exact tag_withChildren n _

theorem descendScalar_cons_pos (f : XmlNode → XmlNode) (t : String) (c : XmlNode)
    (cs : List XmlNode) (h : c.tag = t) : descendScalar f t (c :: cs) = f c :: cs := by
  simp [descendScalar, h]

theorem descendScalar_cons_neg (f : XmlNode → XmlNode) (t : String) (c : XmlNode)
    (cs : List XmlNode) (h : ¬(c.tag = t)) :
    descendScalar f t (c :: cs) = c :: descendScalar f t cs := by
  simp [descendScalar, h]

theorem descendList_congr (f g : XmlNode → XmlNode) (t : String)
    (hfg : ∀ c, f c = g c) :
    ∀ cs : List XmlNode, descendList f t cs = descendScalar g t cs := by
  intro cs
  induction cs with
  | nil => simp [descendList, descendScalar, hfg]
  | cons c cs ih =>
    by_cases h : c.tag = t <;> simp [descendList, descendScalar, h, hfg, ih]

theorem countP_descendScalar (f : XmlNode → XmlNode) (t : String)
    (hf : ∀ c : XmlNode, (f c).tag = c.tag) :
    ∀ cs : List XmlNode, (descendScalar f t cs).countP (fun c => c.tag = t) =
      if cs.countP (fun c => c.tag = t) = 0 then 1
      else cs.countP (fun c => c.tag = t) := by
  intro cs
  induction cs with
  | nil =>
    have ht : (f (newNode t)).tag = t := by rw [hf (newNode t)]; rfl
    simp [descendScalar, List.countP_cons, ht]
  | cons c cs ih =>
    by_cases h : c.tag = t
    · rw [descendScalar_cons_pos _ _ _ _ h]
      simp [List.countP_cons, h, hf]
    · rw [descendScalar_cons_neg _ _ _ _ h]
      simp only [List.countP_cons, h, ih]
      simp [h]

theorem foldl_append_records (rows : List Row) :
    ∀ init : XmlNode,
      (rows.foldl (fun recs row => recs.withChildren (recs.children ++ [buildRecord row]))
          init).children
        = init.children ++ rows.map buildRecord := by
  induction rows with
  | nil => intro init; simp
  | cons r rs ih =>
    intro init
    simp only [List.foldl, List.map, ih, children_withChildren]
    simp

theorem attachScalar_keeps_boiler (parts : List String) (txt : List Char) (n : XmlNode)
    (hn : ∃ rest, n.children = dbLeaf :: appLeaf :: refLeaf :: rest)
    (h1 : parts.head? ≠ some "database") (h2 : parts.head? ≠ some "source-app")
    (h3 : parts.head? ≠ some "ref-type") :
    ∃ rest, (attachScalar parts txt n).children = dbLeaf :: appLeaf :: refLeaf :: rest := by
  obtain ⟨rest0, hrest0⟩ := hn
  match parts with
  | [] => exact ⟨rest0, hrest0⟩
  | [leaf] =>
    refine ⟨rest0 ++ [leafNode leaf txt], ?_⟩
    rw [show attachScalar [leaf] txt n =
        n.withChildren (n.children ++ [leafNode leaf txt]) from rfl]
    rw [children_withChildren, hrest0]
    simp
  | p :: q :: rest2 =>
    simp only [List.head?] at h1 h2 h3
    rw [show attachScalar (p :: q :: rest2) txt n =
        n.withChildren
          (descendScalar (fun c => attachScalar (q :: rest2) txt c) p n.children)
      from rfl]
    rw [children_withChildren, hrest0]
    rw [descendScalar_cons_neg _ _ _ _ (by simpa using fun h => h1 (by rw [← h]; rfl))]
    rw [descendScalar_cons_neg _ _ _ _ (by simpa using fun h => h2 (by rw [← h]; rfl))]
    rw [descendScalar_cons_neg _ _ _ _ (by simpa using fun h => h3 (by rw [← h]; rfl))]
    exact ⟨_, rfl⟩

theorem attachList_keeps_boiler (parts : List String) (items : List (List Char))
    (n : XmlNode)
    (hn : ∃ rest, n.children = dbLeaf :: appLeaf :: refLeaf :: rest)
    (h1 : parts.head? ≠ some "database") (h2 : parts.head? ≠ some "source-app")
    (h3 : parts.head? ≠ some "ref-type") :
    ∃ rest, (attachList parts items n).children = dbLeaf :: appLeaf :: refLeaf :: rest := by
  obtain ⟨rest0, hrest0⟩ := hn
  match parts with
  | [] => exact ⟨rest0, hrest0⟩
  | [leaf] =>
    refine ⟨rest0 ++ items.map (leafNode leaf), ?_⟩
    rw [show attachList [leaf] items n =
        n.withChildren (n.children ++ items.map (leafNode leaf)) from rfl]
    rw [children_withChildren, hrest0]
    simp
  | p :: q :: rest2 =>
    simp only [List.head?] at h1 h2 h3
    rw [show attachList (p :: q :: rest2) items n =
        n.withChildren
          (descendList (fun c => attachList (q :: rest2) items c) p n.children)
      from rfl]
    rw [children_withChildren, hrest0]
    rw [descendList_congr _ (fun c => attachList (q :: rest2) items c) p
      (fun c => rfl)]
    rw [descendScalar_cons_neg _ _ _ _ (by simpa using fun h => h1 (by rw [← h]; rfl))]
    rw [descendScalar_cons_neg _ _ _ _ (by simpa using fun h => h2 (by rw [← h]; rfl))]
    rw [descendScalar_cons_neg _ _ _ _ (by simpa using fun h => h3 (by rw [← h]; rfl))]
    exact ⟨_, rfl⟩

theorem mapping_path_head (e : String × String) (he : e ∈ csv_to_xml_mapping) :
    (pathParts e.2).head? ≠ some "database" ∧
    (pathParts e.2).head? ≠ some "source-app" ∧
    (pathParts e.2).head? ≠ some "ref-type" := by
  fin_cases he <;> exact ⟨by decide, by decide, by decide⟩

theorem processEntry_keeps_boiler (row : Row) (rec : XmlNode) (e : String × String)
    (he : e ∈ csv_to_xml_mapping)
    (hn : ∃ rest, rec.children = dbLeaf :: appLeaf :: refLeaf :: rest) :
    ∃ rest, (processEntry row rec e).children = dbLeaf :: appLeaf :: refLeaf :: rest := by
  obtain ⟨hp1, hp2, hp3⟩ := mapping_path_head e he
  unfold processEntry
  cases hl : row.lookup e.1 with
  | none => exact hn
  | some o =>
    cases o with
    | none => exact hn
    | some v =>
      by_cases ht : (clean_and_format_value (some v) e.2).truthy
      · simp only [ht, if_true]
        cases hc : clean_and_format_value (some v) e.2 with
        | str s => exact attachScalar_keeps_boiler _ s rec hn hp1 hp2 hp3
        | list items => exact attachList_keeps_boiler _ items rec hn hp1 hp2 hp3
      · simp only [ht, if_false]
        exact hn

theorem foldl_keeps_boiler (l : List (String × String))
    (hl : ∀ e ∈ l, e ∈ csv_to_xml_mapping) (row : Row) :
    ∀ rec : XmlNode, (∃ rest, rec.children = dbLeaf :: appLeaf :: refLeaf :: rest) →
      ∃ rest, (l.foldl (processEntry row) rec).children =
        dbLeaf :: appLeaf :: refLeaf :: rest := by
  induction l with
  | nil => intro rec hn; exact hn
  | cons e es ih =>
    intro rec hn
    rw [List.foldl_cons]
    exact ih (fun x hx => hl x (List.mem_cons_of_mem e hx)) _
      (processEntry_keeps_boiler row rec e (hl e (List.mem_cons_self e es)) hn)

theorem processEntry_skip (row : Row) (rec : XmlNode) (e : String × String)
    (h : row.lookup e.1 = none ∨ row.lookup e.1 = some none) :
    processEntry row rec e = rec := by
  unfold processEntry
  rcases h with h | h <;> rw [h]

theorem foldl_processEntry_skip (l : List (String × String)) (row : Row) :
    (∀ e ∈ l, row.lookup e.1 = none ∨ row.lookup e.1 = some none) →
    ∀ rec : XmlNode, l.foldl (processEntry row) rec = rec := by
  induction l with
  | nil => intro _ rec; rfl
  | cons e es ih =>
    intro h rec
    rw [List.foldl_cons, processEntry_skip row rec e (h e (List.mem_cons_self e es))]
    exact ih (fun x hx => h x (List.mem_cons_of_mem e hx)) rec

theorem extractYear_eq_take (cs : List Char) :
    extractYear cs =
      if (cs.take 4).all Char.isDigit = true ∧ 4 ≤ cs.length then cs.take 4 else [] := by
  match cs with
  | [] => simp [extractYear]
  | [a] => simp [extractYear]
  | [a, b] => simp [extractYear]
  | [a, b, c] => simp [extractYear]
  | a :: b :: c :: d :: t =>
    rw [extractYear]
    by_cases ha : a.isDigit <;> by_cases hb : b.isDigit <;>
      by_cases hc : c.isDigit <;> by_cases hd : d.isDigit <;>
        simp [ha, hb, hc, hd, List.take_succ_cons, List.all_cons]

/-! ### Claim theorems -/

/-- Claim C1 counterexample: on `"A::aa::1 (B)::bb::2"` the code first
strips the institution-form suffix, leaving `"A::aa::1"`, and then the
bare `::hex::digits` pattern IS reapplied to that remainder, producing
`"A"` — contradicting the claim that at most one trailing identifier
suffix is removed. -/
theorem clean_author_double_strip_cex :
    clean_author "A::aa::1 (B)::bb::2".data = "A".data ∧
    clean_author_claimed "A::aa::1 (B)::bb::2".data = "A::aa::1".data ∧
    clean_author "A::aa::1 (B)::bb::2".data ≠
      clean_author_claimed "A::aa::1 (B)::bb::2".data :=
  ⟨by decide, by decide, by decide⟩

/-- Claim C1 (amended): `clean_author` strips a trailing institution-form
suffix if present and THEN also strips a bare `::hex::digits` suffix from
the remainder if one is present, so up to two suffixes may be removed.
On the two spec examples the results are as stated, and whenever the bare
pattern does not match the institution-stripped remainder the result
agrees with the one-suffix-only reading. -/
theorem clean_author_amended :
    clean_author "García, Juan (Universidad X)::1a2b3c4d::600".data = "García, Juan".data ∧
    clean_author "Pérez, Ana::9f8e7d::600".data = "Pérez, Ana".data ∧
    clean_author "A::aa::1 (B)::bb::2".data = "A".data ∧
    ∀ cs : List Char, hasEndMatch matchIdSuffix (stripEndMatch matchInstSuffix cs) = false →
      clean_author cs = clean_author_claimed cs := by
  refine ⟨by decide, by decide, by decide, ?_⟩
  intro cs h
  unfold clean_author clean_author_claimed
  rw [stripEndMatch_of_no_match _ _ h]
  by_cases hi : hasEndMatch matchInstSuffix cs
  · rw [if_pos hi]
  · rw [if_neg hi]
    rw [stripEndMatch_of_no_match _ _ (by simpa using hi)] at h ⊢
    rw [stripEndMatch_of_no_match _ _ h]

/-- Witness for C1's amended theorem: on the institution-form spec example
the bare pattern does not match the stripped remainder, and the code and
the one-suffix-only reading agree. -/
theorem clean_author_amended_witness :
    hasEndMatch matchIdSuffix
      (stripEndMatch matchInstSuffix "García, Juan (Universidad X)::1a2b3c4d::600".data)
        = false ∧
    clean_author "García, Juan (Universidad X)::1a2b3c4d::600".data =
      clean_author_claimed "García, Juan (Universidad X)::1a2b3c4d::600".data :=
  ⟨by decide, clean_author_amended.2.2.2 _ (by decide)⟩

/-- Claim C2: under the year rule the result is the leading run of exactly
4 digits of the cleaned string when present, and empty otherwise; in
particular `"2020-05-01T00:00:00Z"` yields `"2020"`, `"n.d."` yields the
empty (absent) result, and a record built from a row whose only mapped
value is a year of `"n.d."` contains no `dates` element at all. -/
theorem year_normalization :
    (∀ cs : List Char, clean_and_format_value (some cs) "dates/year" =
        .str (if ((generalClean cs).take 4).all Char.isDigit = true ∧
                  4 ≤ (generalClean cs).length
              then (generalClean cs).take 4 else [])) ∧
    clean_and_format_value (some "2020-05-01T00:00:00Z".data) "dates/year" =
      .str "2020".data ∧
    clean_and_format_value (some "n.d.".data) "dates/year" = .str [] ∧
    buildRecord [("dc.date.issued", some "n.d.".data)] = baseRecord := by
  refine ⟨?_, by decide, by decide, by rfl⟩
  intro cs
  rw [← extractYear_eq_take]
  rfl

/-- Claim C4: keyword values split on runs of two-or-more pipes or on
semicolons, each piece is trimmed, empty pieces are dropped, and order and
duplicates are preserved; `"soil||water;nutrients"` yields the three
keywords in order and each becomes its own `keyword` leaf under one
`keywords` container. -/
theorem keyword_normalization :
    clean_and_format_value (some "soil||water;nutrients".data) "keywords/keyword" =
      .list ["soil".data, "water".data, "nutrients".data] ∧
    buildRecord [("dc.subject[en_US]", some "soil||water;nutrients".data)] =
      .node "record" [] [] [dbLeaf, appLeaf, refLeaf,
        .node "keywords" [] [] [leafNode "keyword" "soil".data,
          leafNode "keyword" "water".data, leafNode "keyword" "nutrients".data]] ∧
    clean_and_format_value (some "k ;k".data) "keywords/keyword" =
      .list ["k".data, "k".data] ∧
    ∀ cs : List Char, ∀ k ∈ splitKeywords cs, k ≠ [] ∧ pyStrip k = k := by
  refine ⟨by decide, by rfl, by decide, ?_⟩
  intro cs k hk
  unfold splitKeywords at hk
  rw [List.mem_filter] at hk
  obtain ⟨hmem, hne⟩ := hk
  rw [List.mem_map] at hmem
  obtain ⟨k0, _, rfl⟩ := hmem
  exact ⟨by simpa using hne, pyStrip_idem k0⟩

/-- Witness for C4: a concrete piece of a concrete keyword split, fed
through the general trimmed/non-empty consequence. -/
theorem keyword_normalization_witness :
    "so".data ∈ splitKeywords " so ".data ∧
    ("so".data ≠ [] ∧ pyStrip "so".data = "so".data) :=
  ⟨by decide, keyword_normalization.2.2.2 " so ".data "so".data (by decide)⟩

/-- Claim C3 counterexample: the default rule trims BEFORE quote removal,
so the raw value `'" abc "'` (surrounded by literal double quotes)
normalizes to `" abc "`, which still carries leading and trailing
whitespace. -/
theorem default_untrimmed_cex :
    clean_and_format_value (some "\" abc \"".data) "publisher" = .str " abc ".data ∧
    pyStrip " abc ".data ≠ " abc ".data :=
  ⟨by decide, by decide⟩

/-- Claim C3 (amended): values normalized under the author rule always
come out with leading and trailing whitespace trimmed (the author cleaner
ends in a trim); under the default rule the trim is applied before quote
and line-break cleanup, so quote removal can expose surrounding spaces
that remain in the output. -/
theorem author_output_trimmed :
    ∀ cs : List Char, ∃ s,
      clean_and_format_value (some cs) "contributors/authors/author" = .str s ∧
      pyStrip s = s := by
  intro cs
  refine ⟨clean_author (generalClean cs), rfl, ?_⟩
  unfold clean_author
  exact pyStrip_idem _

/-- Claim C5: attachment is find-or-create on direct children — attaching
along a path whose first container segment is `t` leaves exactly one
`t`-child when none existed and reuses the existing ones otherwise (the
count of `t`-children never grows past its previous value, and from zero
it becomes one); concretely, a record built from a row carrying both
title-column variants has exactly one `titles` container, holding both
title leaves appended in order. -/
theorem container_find_or_create :
    (∀ (n : XmlNode) (t : String) (rest : List String) (txt : List Char), rest ≠ [] →
      (attachScalar (t :: rest) txt n).children.countP (fun c => c.tag = t) =
        if n.children.countP (fun c => c.tag = t) = 0 then 1
        else n.children.countP (fun c => c.tag = t)) ∧
    (∀ (n : XmlNode) (t : String) (rest : List String) (items : List (List Char)),
      rest ≠ [] →
      (attachList (t :: rest) items n).children.countP (fun c => c.tag = t) =
        if n.children.countP (fun c => c.tag = t) = 0 then 1
        else n.children.countP (fun c => c.tag = t)) ∧
    (buildRecord [("dc.title[en_US]", some "T1".data), ("dc.title", some "T2".data)]
        |>.children.countP (fun c => c.tag = "titles")) = 1 ∧
    buildRecord [("dc.title[en_US]", some "T1".data), ("dc.title", some "T2".data)] =
      .node "record" [] [] [dbLeaf, appLeaf, refLeaf,
        .node "titles" [] [] [leafNode "title" "T1".data, leafNode "title" "T2".data]] := by
  refine ⟨?_, ?_, by decide, by rfl⟩
  · intro n t rest txt hrest
    match rest with
    | [] => exact absurd rfl hrest
    | q :: rest2 =>
      rw [show attachScalar (t :: q :: rest2) txt n =
          n.withChildren
            (descendScalar (fun c => attachScalar (q :: rest2) txt c) t n.children)
        from rfl]
      rw [children_withChildren]
      exact countP_descendScalar _ t (fun c => attachScalar_tag (q :: rest2) txt c)
        n.children
  · intro n t rest items hrest
    match rest with
    | [] => exact absurd rfl hrest
    | q :: rest2 =>
      rw [show attachList (t :: q :: rest2) items n =
          n.withChildren
            (descendList (fun c => attachList (q :: rest2) items c) t n.children)
        from rfl]
      rw [children_withChildren]
      rw [descendList_congr _ (fun c => attachList (q :: rest2) items c) t
        (fun c => rfl) n.children]
      exact countP_descendScalar _ t (fun c => attachList_tag (q :: rest2) items c)
        n.children

/-- Witness for C5: the two general find-or-create count equations applied
at the base record with path `titles/title`. -/
theorem container_find_or_create_witness :
    (attachScalar ("titles" :: ["title"]) "T".data baseRecord).children.countP
        (fun c => c.tag = "titles") =
      (if baseRecord.children.countP (fun c => c.tag = "titles") = 0 then 1
       else baseRecord.children.countP (fun c => c.tag = "titles")) ∧
    (attachList ("titles" :: ["title"]) ["T".data] baseRecord).children.countP
        (fun c => c.tag = "titles") =
      (if baseRecord.children.countP (fun c => c.tag = "titles") = 0 then 1
       else baseRecord.children.countP (fun c => c.tag = "titles")) :=
  ⟨container_find_or_create.1 baseRecord "titles" ["title"] "T".data (by decide),
   container_find_or_create.2.1 baseRecord "titles" ["title"] ["T".data] (by decide)⟩

/-- Claim C6: the conversion yields exactly one record per input row, in
input order — the children of the `records` container are precisely the
per-row built records, mapped in order, so their number equals the row
count. -/
theorem one_record_per_row :
    ∀ rows : List Row,
      (convertRecords rows).children = rows.map buildRecord ∧
      (convertRecords rows).children.length = rows.length ∧
      convert rows = .node "xml" [] [] [convertRecords rows] := by
  intro rows
  have h : (convertRecords rows).children = rows.map buildRecord := by
    unfold convertRecords
    rw [foldl_append_records]
    rfl
  exact ⟨h, by rw [h, List.length_map], rfl⟩

/-- Claim C10: the duplicated attach code paths are equivalent — for every
target path, every in-progress tree, and every string, the list branch on
the singleton list produces exactly the tree the scalar branch produces on
the bare string. -/
theorem list_scalar_branch_equiv :
    ∀ (parts : List String) (txt : List Char) (n : XmlNode),
      attachList parts [txt] n = attachScalar parts txt n := by
  intro parts
  induction parts with
  | nil => intro txt n; rfl
  | cons p rest ih =>
    intro txt n
    match rest with
    | [] => rfl
    | q :: rest2 =>
      rw [show attachList (p :: q :: rest2) [txt] n =
          n.withChildren
            (descendList (fun c => attachList (q :: rest2) [txt] c) p n.children)
        from rfl]
      rw [show attachScalar (p :: q :: rest2) txt n =
          n.withChildren
            (descendScalar (fun c => attachScalar (q :: rest2) txt c) p n.children)
        from rfl]
      rw [descendList_congr _ (fun c => attachScalar (q :: rest2) txt c) p
        (fun c => ih txt c) n.children]

/-- Claim C7: every built record starts with the three boilerplate leaves
(database/library identifier, source-application identifier, and the
`ref-type` marker with the fixed thesis code 32) whatever the row holds,
and a row in which every mapped column is absent or missing yields a
record with exactly those three children and no others. -/
theorem boilerplate_record :
    (∀ row : Row, ∃ rest,
      (buildRecord row).children = dbLeaf :: appLeaf :: refLeaf :: rest) ∧
    (∀ row : Row, (∀ col path, (col, path) ∈ csv_to_xml_mapping →
        Row.lookup row col = none ∨ Row.lookup row col = some none) →
      buildRecord row = baseRecord) ∧
    buildRecord [] = baseRecord := by
  refine ⟨?_, ?_, by rfl⟩
  · intro row
    exact foldl_keeps_boiler csv_to_xml_mapping (fun e he => he) row baseRecord
      ⟨[], rfl⟩
  · intro row h
    exact foldl_processEntry_skip csv_to_xml_mapping row
      (fun e he => h e.1 e.2 he) baseRecord

/-- Witness for C7: a row that names one mapped column but with a missing
(NaN) cell still produces the bare boilerplate record. -/
theorem boilerplate_record_witness :
    buildRecord [("dc.title", none)] = baseRecord :=
  boilerplate_record.2.1 [("dc.title", none)]
    (by intro col path h; fin_cases h <;> decide)

/-- Claim C8: an entry whose column is absent from the row, whose raw
value is missing, or whose normalized result is empty (falsy string or
list) adds no node — `processEntry` returns the record unchanged. -/
theorem absent_value_skipped (row : Row) (rec : XmlNode) (col path : String) :
    (Row.lookup row col = none ∨ Row.lookup row col = some none ∨
      ∃ v, Row.lookup row col = some (some v) ∧
        (clean_and_format_value (some v) path).truthy = false) →
    processEntry row rec (col, path) = rec := by
  intro h
  rcases h with h | h | ⟨v, hv, ht⟩
  · unfold processEntry
    rw [h]
  · unfold processEntry
    rw [h]
  · unfold processEntry
    rw [hv]
    simp only [ht]
    rfl

/-- Witness for C8: a present year column whose value `"n.d."` normalizes
to the empty string adds nothing to the record. -/
theorem absent_value_skipped_witness :
    processEntry [("dc.date.issued", some "n.d.".data)] baseRecord
      ("dc.date.issued", "dates/year") = baseRecord :=
  absent_value_skipped [("dc.date.issued", some "n.d.".data)] baseRecord
    "dc.date.issued" "dates/year"
    (Or.inr (Or.inr ⟨"n.d.".data, by decide, by decide⟩))

/-- Claim C9: the conversion is deterministic — the document is a pure
function of the row sequence alone (two runs on the same rows are equal),
and its records container is exactly the in-order map of the record
builder over the rows, with the mapping table processed in its fixed
declaration order. -/
theorem conversion_deterministic :
    ∀ rows : List Row,
      convert rows = convert rows ∧
      (convertRecords rows).children = rows.map buildRecord := by
  intro rows
  refine ⟨rfl, ?_⟩
  unfold convertRecords
  rw [foldl_append_records]
  rfl

end Conversor
